import Mathlib

/-!
Verification of the audio-bridge firmware in src/main/blu_moudle.c
(Wi-Fi to Bluetooth A2DP audio bridge with interactive setup).

The C source is shallowly embedded: the FreeRTOS stream buffer becomes an
explicit FIFO state, callbacks become pure functions from state and event to
state and emitted actions, and machine integers become Nat/Int.
-/

namespace AudioBridge

/-- Constant from src/main/blu_moudle.c line 50. -/
def MAX_DISCOVERED_DEVICES : Nat := 20

/-- Constant from src/main/blu_moudle.c line 67: 16 * 1024 bytes. -/
def STREAM_BUFFER_SIZE : Nat := 16 * 1024

/-- Constant from src/main/blu_moudle.c line 66. -/
def TCP_PORT : Nat := 8080

/-!
## Audio relay buffer

The code uses a FreeRTOS stream buffer created by
`xStreamBufferCreate(STREAM_BUFFER_SIZE, 1)` (line 275).  We model its state
as the FIFO list of bytes currently stored plus the bytes a blocked sender
still has to enqueue (a send with portMAX_DELAY writes what fits and then
blocks until space appears; the unwritten remainder is the `pending` part).
-/

/-- State of the relay stream buffer: `buf` is the FIFO content, `pending`
holds bytes of an in-progress blocking send that did not fit yet. -/
structure RelaySt where
  buf : List Nat
  pending : List Nat
  deriving Repr, DecidableEq

/-- The empty stream buffer, as created in app_main (line 275). -/
def emptyRelay : RelaySt := ⟨[], []⟩

/-- Move as many pending bytes into the buffer as the capacity allows.
This models the blocked sender making progress whenever space appears. -/
def relayDrain (s : RelaySt) : RelaySt :=
  let k := min s.pending.length (STREAM_BUFFER_SIZE - s.buf.length)
  ⟨s.buf ++ s.pending.take k, s.pending.drop k⟩

/-- Model of `xStreamBufferSend(s_audio_stream_buffer, bytes, len, portMAX_DELAY)`
(line 384): the sender enqueues what fits and blocks on the rest, so the
trace state records the remainder as pending. -/
def xStreamBufferSend (s : RelaySt) (bytes : List Nat) : RelaySt :=
  relayDrain ⟨s.buf, s.pending ++ bytes⟩

/-- Model of `xStreamBufferReceive(s_audio_stream_buffer, data, maxLen, timeout)`
(line 343): returns up to `maxLen` bytes currently available, in FIFO order;
with no concurrent send completing within the timeout an empty buffer yields
zero bytes. Afterwards a blocked sender can fill the freed space. -/
def xStreamBufferReceive (s : RelaySt) (maxLen : Nat) : List Nat × RelaySt :=
  (s.buf.take maxLen, relayDrain ⟨s.buf.drop maxLen, s.pending⟩)

/-- Model of `a2d_data_cb(uint8_t *data, int32_t len)` (lines 336-354).
The destination pointer is `Option Unit` (`none` = NULL); the result is
(return value, bytes written to the destination, buffer state after). -/
def a2d_data_cb (data : Option Unit) (len : Int) (s : RelaySt) :
    Int × List Nat × RelaySt :=
  if len < 0 ∨ data = none then
    (0, [], s)
  else
    let n := len.toNat
    let pr := xStreamBufferReceive s n
    let bytes_read := pr.1.length
    (len, pr.1 ++ List.replicate (n - bytes_read) 0, pr.2)

/-- An event at the producer/consumer boundary of the relay buffer:
a send from the ingestion loop (line 384) or a receive from the audio pull
callback (line 343). -/
inductive RelayEvt where
  | send (bytes : List Nat)
  | recv (maxLen : Nat)
  deriving Repr, DecidableEq

/-- One relay event applied to the buffer state; a receive also yields the
bytes handed to the consumer. -/
def relayStep (s : RelaySt) : RelayEvt → RelaySt × List Nat
  | .send bytes => (xStreamBufferSend s bytes, [])
  | .recv n => ((xStreamBufferReceive s n).2, (xStreamBufferReceive s n).1)

/-- Run a sequence of relay events from a given buffer state and already
delivered output, collecting all bytes delivered to the consumer in order. -/
def relayRunFrom (acc : RelaySt × List Nat) (evts : List RelayEvt) : RelaySt × List Nat :=
  evts.foldl (fun a e => ((relayStep a.1 e).1, a.2 ++ (relayStep a.1 e).2)) acc

/-- Run a sequence of relay events from the empty buffer. -/
def relayRun (evts : List RelayEvt) : RelaySt × List Nat :=
  relayRunFrom (emptyRelay, []) evts

/-- All bytes handed to the send side over an event sequence, in order. -/
def sentBytes : List RelayEvt → List Nat
  | [] => []
  | .send b :: es => b ++ sentBytes es
  | .recv _ :: es => sentBytes es

/-!
## Bluetooth discovery registry

`bt_app_gap_cb` (lines 84-114) maintains `s_bt_devices` /
`s_bt_device_count`: a discovery result is appended unless its hardware
address is already present (memcmp over the 6-byte bda, line 90) or the
registry already holds MAX_DISCOVERED_DEVICES entries (line 95).
-/

/-- A discovery-result callback parameter: the hardware address `bda`
compared by the dedup check, plus the rest of the parameter blob, which the
registry logic copies but never inspects. -/
structure BtDevice where
  bda : List Nat
  props : List Nat
  deriving Repr, DecidableEq

/-- Model of the ESP_BT_GAP_DISC_RES_EVT branch (lines 86-101): append the
device unless its address is already in the registry or the registry is
full; otherwise the result is dropped and the registry is unchanged. -/
def bt_disc_res (regs : List BtDevice) (p : BtDevice) : List BtDevice :=
  let found := regs.any fun d => d.bda == p.bda
  if found = false ∧ regs.length < MAX_DISCOVERED_DEVICES then
    regs ++ [p]
  else
    regs

/-- The GAP callback events dispatched by bt_app_gap_cb (lines 85-113). -/
inductive BtGapEvent where
  | discRes (p : BtDevice)
  | discStateChanged (stopped : Bool)
  | other
  deriving Repr, DecidableEq

/-- Model of bt_app_gap_cb restricted to its effect on the device registry:
only a discovery result can change it; the state-changed branch raises an
event-group bit (lines 102-110) and the default branch does nothing. -/
def bt_app_gap_cb (regs : List BtDevice) : BtGapEvent → List BtDevice
  | .discRes p => bt_disc_res regs p
  | .discStateChanged _ => regs
  | .other => regs

/-- The registry produced by a sequence of GAP callbacks starting from the
cleared registry (`s_bt_device_count = 0`, line 165). -/
def processGapEvents (evts : List BtGapEvent) : List BtDevice :=
  evts.foldl bt_app_gap_cb []

/-!
## Operator input parsing and the selection states

setup_task (lines 157-262) reads a line with get_user_input, parses it with
atoi, and accepts a choice in [1, count].
-/

/-- C `isspace` on the default locale, as skipped by `atoi`. -/
def isSpaceC (c : Char) : Bool :=
  c == ' ' || c == '\t' || c == '\n' || c == '\x0b' || c == '\x0c' || c == '\r'

/-- Digit-accumulation loop of C `atoi`: consume leading decimal digits,
stopping at the first non-digit. -/
def parseDigitsAcc : List Char → Int → Int
  | [], acc => acc
  | c :: rest, acc =>
    if c.isDigit then parseDigitsAcc rest (acc * 10 + (c.toNat - 48)) else acc

/-- Model of C `atoi` (used at lines 184 and 216): skip whitespace, read an
optional sign, then decimal digits; no digits yields 0. -/
def atoi (s : List Char) : Int :=
  match s.dropWhile isSpaceC with
  | '-' :: rest => -(parseDigitsAcc rest 0)
  | '+' :: rest => parseDigitsAcc rest 0
  | t => parseDigitsAcc t 0

/-- The setup state machine states, app_state_t (lines 35-45). -/
inductive AppState where
  | INIT
  | BT_DISCOVERY
  | BT_DEVICE_SELECTION
  | BT_CONNECTING
  | WIFI_SCANNING
  | WIFI_NETWORK_SELECTION
  | WIFI_PASSWORD_INPUT
  | WIFI_CONNECTING
  | RUNNING
  deriving Repr, DecidableEq

/-- The setup globals the selection states read and write: the current
state s_app_state, the device registry, the Wi-Fi scan results (ssid and
rssi per record) and the ssid field of s_wifi_config. -/
structure SetupCtx where
  state : AppState
  btDevices : List BtDevice
  wifiAps : List (List Char × Int)
  ssid : List Char
  deriving Repr, DecidableEq

/-- External actions a selection-state iteration can issue. -/
inductive SetupAction where
  | a2dSourceConnect (bda : List Nat)
  | invalidChoicePrompt
  deriving Repr, DecidableEq

/-- Model of one iteration of the setup_task switch in the two selection
states (lines 181-191 and 213-224): parse the input line with atoi; a
choice in [1, count] issues the connect command (Bluetooth case) or
captures the selected ssid (Wi-Fi case) and advances the state; any other
input prints the invalid-choice prompt and leaves everything unchanged. -/
def selection_step (ctx : SetupCtx) (input : List Char) : SetupCtx × List SetupAction :=
  match ctx.state with
  | .BT_DEVICE_SELECTION =>
    let choice := atoi input
    if 0 < choice ∧ choice ≤ (ctx.btDevices.length : Int) then
      ({ ctx with state := .BT_CONNECTING },
       [.a2dSourceConnect (ctx.btDevices.getD (choice.toNat - 1) ⟨[], []⟩).bda])
    else
      (ctx, [.invalidChoicePrompt])
  | .WIFI_NETWORK_SELECTION =>
    let choice := atoi input
    if 0 < choice ∧ choice ≤ (ctx.wifiAps.length : Int) then
      ({ ctx with state := .WIFI_PASSWORD_INPUT,
                  ssid := (ctx.wifiAps.getD (choice.toNat - 1) ([], 0)).1 }, [])
    else
      (ctx, [.invalidChoicePrompt])
  | _ => (ctx, [])

/-!
## Serial input helper

get_user_input (lines 304-319): zero the destination, then poll fgetc while
i < len - 1; a newline or carriage return ends the read, a negative fgetc
result (no byte available) retries after a delay.
-/

/-- The read loop of get_user_input. `buffer` is the destination content,
`i` the write index, `len` the destination size; the list is the finite
prefix of fgetc results observed (negative = no byte available yet). If the
loop has not exited by the end of that prefix, the buffer content at that
point is returned. -/
def gui_loop (buffer : List Nat) (i len : Nat) : List Int → List Nat
  | [] => buffer
  | c :: rest =>
    if i < len - 1 then
      if 0 ≤ c then
        if c = 10 ∨ c = 13 then buffer
        else gui_loop (buffer.set i c.toNat) (i + 1) len rest
      else gui_loop buffer i len rest
    else buffer

/-- Model of get_user_input(char *buffer, int len) (lines 304-319): memset
the destination to zero, then run the read loop from index 0. -/
def get_user_input (stream : List Int) (len : Nat) : List Nat :=
  gui_loop (List.replicate len 0) 0 len stream

/-!
## TCP ingestion loop

tcp_server_task (lines 356-395): per accepted connection, a do-while loop
recv-ing into a 1024-byte buffer; positive lengths are pushed whole to the
stream buffer, a result of zero or less ends the loop and tears the
connection down (shutdown, close, client_socket = -1, lines 388-391).
-/

/-- The receive loop for one accepted connection. Each list element is the
byte chunk a recv call delivered; the empty chunk stands for recv returning
zero (peer closed) or a negative error code, which deliver no bytes.
Returns the chunks pushed to the stream buffer in order, and whether the
teardown (shutdown, close, handle reset) was reached; false means the loop
is still blocked in recv at the end of the observed prefix. -/
def serve_connection : List (List Nat) → List (List Nat) × Bool
  | [] => ([], false)
  | chunk :: rest =>
    if 0 < chunk.length then
      ((chunk :: (serve_connection rest).1), (serve_connection rest).2)
    else
      ([], true)

/-!
## Wi-Fi event handler
-/

/-- The events dispatched to wifi_event_handler (lines 143-154). -/
inductive WifiEvent where
  | scanDone
  | staGotIp
  | staDisconnected
  | otherEvent
  deriving Repr, DecidableEq

/-- Actions wifi_event_handler can issue. -/
inductive WifiAction where
  | setScanDoneBit
  | setConnectedBit
  | espWifiConnect
  deriving Repr, DecidableEq

/-- The stored network credentials, s_wifi_config.sta (line 56). -/
structure WifiCfg where
  ssid : List Char
  password : List Nat
  deriving Repr, DecidableEq

/-- Model of wifi_event_handler (lines 143-154) together with the stored
credentials, which the handler reads nor writes: scan-done and got-ip set
event-group bits; a station disconnect calls esp_wifi_connect(), which
retries with the configuration already stored in the Wi-Fi stack. -/
def wifi_event_handler (cfg : WifiCfg) : WifiEvent → WifiCfg × List WifiAction
  | .scanDone => (cfg, [.setScanDoneBit])
  | .staGotIp => (cfg, [.setConnectedBit])
  | .staDisconnected => (cfg, [.espWifiConnect])
  | .otherEvent => (cfg, [])

/-!
## Blocking wait sites

Every call in the source that can suspend its task, with the timeout
argument written at that call site.
-/

/-- The blocking wait sites of the firmware, one constructor per call:
the four xEventGroupWaitBits calls of setup_task (lines 172, 195, 203, 237,
all portMAX_DELAY), the fgetc polling loop of get_user_input (lines
307-317, no bound), accept (line 370) and recv (line 381) of
tcp_server_task (no timeout configured), the xStreamBufferSend push (line
384, portMAX_DELAY), and the xStreamBufferReceive pull in a2d_data_cb
(line 343, pdMS_TO_TICKS(20)). -/
inductive WaitSite where
  | btDiscoveryDoneWait
  | btConnectedWait
  | wifiScanDoneWait
  | wifiConnectedWait
  | userInputRead
  | tcpAccept
  | tcpRecv
  | streamBufferSendPush
  | audioPullReceive
  deriving Repr, DecidableEq

/-- Timeout bound, in milliseconds, of each wait site, read off the timeout
argument at the corresponding source line; `none` means unbounded
(portMAX_DELAY or no timeout at all). -/
def waitTimeoutMs : WaitSite → Option Nat
  | .audioPullReceive => some 20
  | _ => none

/-!
# Theorems
-/

/-- Length of a received chunk: at most the requested amount. -/
theorem receive_length_le (s : RelaySt) (n : Nat) :
    (xStreamBufferReceive s n).1.length ≤ n := by
  simp [xStreamBufferReceive]

/-- C1: for a non-negative requested length and non-null destination, the
callback writes exactly `len` bytes (the received prefix followed by zeros
for the shortfall) and returns exactly `len`, never a shorter count. -/
theorem a2d_data_cb_full_delivery (len : Int) (s : RelaySt) (h : 0 ≤ len) :
    (a2d_data_cb (some ()) len s).1 = len ∧
    (a2d_data_cb (some ()) len s).2.1.length = len.toNat ∧
    (a2d_data_cb (some ()) len s).2.1 =
      (xStreamBufferReceive s len.toNat).1 ++
        List.replicate (len.toNat - (xStreamBufferReceive s len.toNat).1.length) 0 := by
  have hnl : ¬len < 0 := not_lt.mpr h
  have hle := receive_length_le s len.toNat
  refine ⟨?_, ?_, ?_⟩ <;> simp [a2d_data_cb, hnl]
  omega

/-- Witness for C1 at a concrete input: request 4 bytes from a buffer
holding 2 bytes; the callback writes [7, 7, 0, 0] and returns 4. -/
theorem a2d_data_cb_full_delivery_witness :
    (0 : Int) ≤ 4 ∧
    ((a2d_data_cb (some ()) 4 ⟨[7, 7], []⟩).1 = 4 ∧
     (a2d_data_cb (some ()) 4 ⟨[7, 7], []⟩).2.1.length = (4 : Int).toNat ∧
     (a2d_data_cb (some ()) 4 ⟨[7, 7], []⟩).2.1 =
       (xStreamBufferReceive ⟨[7, 7], []⟩ (4 : Int).toNat).1 ++
         List.replicate
           ((4 : Int).toNat - (xStreamBufferReceive ⟨[7, 7], []⟩ (4 : Int).toNat).1.length) 0) :=
  ⟨by decide, a2d_data_cb_full_delivery 4 ⟨[7, 7], []⟩ (by decide)⟩

/-- C10: a negative requested length or a null destination makes the
callback return 0 immediately, write nothing, and leave the buffer
unchanged. -/
theorem a2d_data_cb_rejects_invalid (data : Option Unit) (len : Int) (s : RelaySt)
    (h : len < 0 ∨ data = none) :
    a2d_data_cb data len s = (0, [], s) := by
  simp [a2d_data_cb, h]

/-- Witness for C10: a negative length with a valid pointer, at a concrete
buffer state. -/
theorem a2d_data_cb_rejects_invalid_witness :
    ((-5 : Int) < 0 ∨ (some () : Option Unit) = none) ∧
    a2d_data_cb (some ()) (-5) ⟨[1, 2, 3], []⟩ = (0, [], ⟨[1, 2, 3], []⟩) :=
  ⟨Or.inl (by decide),
   a2d_data_cb_rejects_invalid (some ()) (-5) ⟨[1, 2, 3], []⟩ (Or.inl (by decide))⟩

/-- One discovery result preserves the capacity bound and address
deduplication of the registry. -/
theorem bt_disc_res_preserves_inv (regs : List BtDevice) (p : BtDevice)
    (h1 : regs.length ≤ MAX_DISCOVERED_DEVICES)
    (h2 : (regs.map BtDevice.bda).Nodup) :
    (bt_disc_res regs p).length ≤ MAX_DISCOVERED_DEVICES ∧
    ((bt_disc_res regs p).map BtDevice.bda).Nodup := by
  unfold bt_disc_res
  by_cases hc : (regs.any fun d => d.bda == p.bda) = false ∧
      regs.length < MAX_DISCOVERED_DEVICES
  · have hnotmem : p.bda ∉ regs.map BtDevice.bda := by
      intro hmem
      obtain ⟨d, hd, hbda⟩ := List.exists_of_mem_map hmem
      have : (regs.any fun d => d.bda == p.bda) = true :=
        List.any_eq_true.mpr ⟨d, hd, by simp [hbda]⟩
      simp [hc.1] at this
    rw [if_pos hc]
    constructor
    · have := hc.2
      simp only [List.length_append, List.length_cons, List.length_nil]
      omega
    · simp only [List.map_append, List.map_cons, List.map_nil]
      exact List.Nodup.append h2 (List.nodup_singleton _)
        (by simpa using hnotmem)
  · rw [if_neg hc]
    exact ⟨h1, h2⟩

/-- Every GAP callback preserves the registry invariant. -/
theorem bt_app_gap_cb_preserves_inv (regs : List BtDevice) (e : BtGapEvent)
    (h1 : regs.length ≤ MAX_DISCOVERED_DEVICES)
    (h2 : (regs.map BtDevice.bda).Nodup) :
    (bt_app_gap_cb regs e).length ≤ MAX_DISCOVERED_DEVICES ∧
    ((bt_app_gap_cb regs e).map BtDevice.bda).Nodup := by
  cases e with
  | discRes p => exact bt_disc_res_preserves_inv regs p h1 h2
  | discStateChanged s => exact ⟨h1, h2⟩
  | other => exact ⟨h1, h2⟩

/-- Folding any event sequence from an invariant-satisfying registry keeps
the invariant. -/
theorem foldGap_preserves_inv (evts : List BtGapEvent) :
    ∀ regs : List BtDevice,
      regs.length ≤ MAX_DISCOVERED_DEVICES →
      (regs.map BtDevice.bda).Nodup →
      (evts.foldl bt_app_gap_cb regs).length ≤ MAX_DISCOVERED_DEVICES ∧
      ((evts.foldl bt_app_gap_cb regs).map BtDevice.bda).Nodup := by
  induction evts with
  | nil => intro regs h1 h2; exact ⟨h1, h2⟩
  | cons e es ih =>
    intro regs h1 h2
    have h := bt_app_gap_cb_preserves_inv regs e h1 h2
    exact ih (bt_app_gap_cb regs e) h.1 h.2

/-- A discovery result whose address is present, or that arrives at a full
registry, is dropped. -/
theorem bt_disc_res_drop (regs : List BtDevice) (p : BtDevice)
    (h : p.bda ∈ regs.map BtDevice.bda ∨ MAX_DISCOVERED_DEVICES ≤ regs.length) :
    bt_disc_res regs p = regs := by
  unfold bt_disc_res
  rcases h with hmem | hfull
  · obtain ⟨d, hd, hbda⟩ := List.exists_of_mem_map hmem
    have hany : (regs.any fun d => d.bda == p.bda) = true :=
      List.any_eq_true.mpr ⟨d, hd, by simp [hbda]⟩
    simp [hany]
  · have : ¬regs.length < MAX_DISCOVERED_DEVICES := not_lt.mpr hfull
    simp [this]

/-- C3: for every sequence of GAP discovery callbacks starting from the
cleared registry, the registry never exceeds MAX_DISCOVERED_DEVICES = 20
entries and never contains two entries with the same hardware address; and
a further discovery result whose address is already present, or that
arrives when the registry is full, leaves the registry unchanged. -/
theorem bt_registry_invariant (evts : List BtGapEvent) (p : BtDevice) :
    (processGapEvents evts).length ≤ MAX_DISCOVERED_DEVICES ∧
    ((processGapEvents evts).map BtDevice.bda).Nodup ∧
    ((p.bda ∈ (processGapEvents evts).map BtDevice.bda ∨
        MAX_DISCOVERED_DEVICES ≤ (processGapEvents evts).length) →
      bt_app_gap_cb (processGapEvents evts) (.discRes p) = processGapEvents evts) := by
  have h := foldGap_preserves_inv evts [] (by simp [MAX_DISCOVERED_DEVICES]) (by simp)
  exact ⟨h.1, h.2, fun hd => bt_disc_res_drop _ p hd⟩

/-- Witness for C3 at a concrete input: after two discovery results with
distinct addresses, a repeat of the first address is dropped. -/
theorem bt_registry_invariant_witness :
    ((⟨[1, 2, 3, 4, 5, 6], []⟩ : BtDevice).bda ∈
        (processGapEvents [.discRes ⟨[1, 2, 3, 4, 5, 6], []⟩,
          .discRes ⟨[9, 9, 9, 9, 9, 9], [3]⟩]).map BtDevice.bda ∨
      MAX_DISCOVERED_DEVICES ≤
        (processGapEvents [.discRes ⟨[1, 2, 3, 4, 5, 6], []⟩,
          .discRes ⟨[9, 9, 9, 9, 9, 9], [3]⟩]).length) ∧
    bt_app_gap_cb
        (processGapEvents [.discRes ⟨[1, 2, 3, 4, 5, 6], []⟩,
          .discRes ⟨[9, 9, 9, 9, 9, 9], [3]⟩])
        (.discRes ⟨[1, 2, 3, 4, 5, 6], []⟩) =
      processGapEvents [.discRes ⟨[1, 2, 3, 4, 5, 6], []⟩,
        .discRes ⟨[9, 9, 9, 9, 9, 9], [3]⟩] :=
  ⟨Or.inl (by decide),
   (bt_registry_invariant
      [.discRes ⟨[1, 2, 3, 4, 5, 6], []⟩, .discRes ⟨[9, 9, 9, 9, 9, 9], [3]⟩]
      ⟨[1, 2, 3, 4, 5, 6], []⟩).2.2 (Or.inl (by decide))⟩

/-- C4: in both selection states, an input whose atoi value lies outside
[1, count] (non-numeric input parses to 0) leaves the setup context
unchanged and prints the invalid-choice prompt, while an input parsing into
[1, count] issues the corresponding action — the connect command for the
chosen sink, or the capture of the chosen ssid — and advances the state. -/
theorem selection_validated (ctx : SetupCtx) (input : List Char) :
    (ctx.state = .BT_DEVICE_SELECTION →
      (¬(0 < atoi input ∧ atoi input ≤ (ctx.btDevices.length : Int)) →
        selection_step ctx input = (ctx, [.invalidChoicePrompt])) ∧
      ((0 < atoi input ∧ atoi input ≤ (ctx.btDevices.length : Int)) →
        selection_step ctx input =
          ({ ctx with state := .BT_CONNECTING },
           [.a2dSourceConnect
              (ctx.btDevices.getD ((atoi input).toNat - 1) ⟨[], []⟩).bda]))) ∧
    (ctx.state = .WIFI_NETWORK_SELECTION →
      (¬(0 < atoi input ∧ atoi input ≤ (ctx.wifiAps.length : Int)) →
        selection_step ctx input = (ctx, [.invalidChoicePrompt])) ∧
      ((0 < atoi input ∧ atoi input ≤ (ctx.wifiAps.length : Int)) →
        selection_step ctx input =
          ({ ctx with state := .WIFI_PASSWORD_INPUT,
                      ssid := (ctx.wifiAps.getD ((atoi input).toNat - 1) ([], 0)).1 },
           []))) := by
  obtain ⟨st, devs, aps, ss⟩ := ctx
  constructor
  · intro hs
    cases hs
    constructor
    · intro hinv
      simp only [selection_step]
      rw [if_neg hinv]
    · intro hv
      simp only [selection_step]
      rw [if_pos hv]
  · intro hs
    cases hs
    constructor
    · intro hinv
      simp only [selection_step]
      rw [if_neg hinv]
    · intro hv
      simp only [selection_step]
      rw [if_pos hv]

/-- Witness for C4 at a concrete input: one discovered device, operator
types "1"; the machine connects to it and advances, and typing "7" reprompts
without changing anything. -/
theorem selection_validated_witness :
    ((⟨.BT_DEVICE_SELECTION, [⟨[1, 2, 3, 4, 5, 6], []⟩], [], []⟩ : SetupCtx).state =
        .BT_DEVICE_SELECTION) ∧
    (0 < atoi ['1'] ∧
      atoi ['1'] ≤
        ((⟨.BT_DEVICE_SELECTION, [⟨[1, 2, 3, 4, 5, 6], []⟩], [], []⟩ :
            SetupCtx).btDevices.length : Int)) ∧
    selection_step ⟨.BT_DEVICE_SELECTION, [⟨[1, 2, 3, 4, 5, 6], []⟩], [], []⟩ ['1'] =
      ({ (⟨.BT_DEVICE_SELECTION, [⟨[1, 2, 3, 4, 5, 6], []⟩], [], []⟩ : SetupCtx) with
          state := .BT_CONNECTING },
       [.a2dSourceConnect
          (((⟨.BT_DEVICE_SELECTION, [⟨[1, 2, 3, 4, 5, 6], []⟩], [], []⟩ :
              SetupCtx).btDevices.getD ((atoi ['1']).toNat - 1) ⟨[], []⟩)).bda]) ∧
    selection_step ⟨.BT_DEVICE_SELECTION, [⟨[1, 2, 3, 4, 5, 6], []⟩], [], []⟩ ['7'] =
      (⟨.BT_DEVICE_SELECTION, [⟨[1, 2, 3, 4, 5, 6], []⟩], [], []⟩,
       [.invalidChoicePrompt]) :=
  ⟨rfl, by decide,
   ((selection_validated ⟨.BT_DEVICE_SELECTION, [⟨[1, 2, 3, 4, 5, 6], []⟩], [], []⟩
       ['1']).1 rfl).2 (by decide),
   ((selection_validated ⟨.BT_DEVICE_SELECTION, [⟨[1, 2, 3, 4, 5, 6], []⟩], [], []⟩
       ['7']).1 rfl).1 (by decide)⟩

/-- C8: a station-disconnected event makes the handler immediately issue the
reconnect command, leaving the stored credentials untouched; repeating the
event any number of times issues one reconnect per event, always with the
same unchanged credentials. -/
theorem wifi_disconnect_reconnects (cfg : WifiCfg) (n : Nat) :
    wifi_event_handler cfg .staDisconnected = (cfg, [.espWifiConnect]) ∧
    (List.replicate n WifiEvent.staDisconnected).map (fun e => wifi_event_handler cfg e) =
      List.replicate n (cfg, [WifiAction.espWifiConnect]) := by
  exact ⟨rfl, by simp [List.map_replicate, wifi_event_handler]⟩

/-- C2: the buffer pull inside the audio callback is bounded by a fixed
20 ms timeout, and it is the only bounded wait site in the firmware — every
other wait site has no timeout bound. -/
theorem audio_pull_only_bounded_wait :
    waitTimeoutMs .audioPullReceive = some 20 ∧
    ∀ w : WaitSite, w = .audioPullReceive ∨ waitTimeoutMs w = none := by
  refine ⟨rfl, fun w => ?_⟩
  cases w <;> simp [waitTimeoutMs]

/-- When the receive sequence of a connection contains an empty result, the
loop pushes exactly the non-empty chunks before it and reaches teardown. -/
theorem serve_connection_takeWhile (recvs : List (List Nat)) :
    [] ∈ recvs →
    serve_connection recvs = (recvs.takeWhile (fun c => decide (0 < c.length)), true) := by
  induction recvs with
  | nil => intro h; cases h
  | cons c rest ih =>
    intro h
    by_cases hc : 0 < c.length
    · have hrest : [] ∈ rest := by
        rcases List.mem_cons.mp h with h0 | h0
        · exfalso
          rw [← h0] at hc
          simp at hc
        · exact h0
      have hres := ih hrest
      simp [serve_connection, hc, List.takeWhile_cons, hres]
    · have hc0 : c = [] := List.length_eq_zero.mp (by omega)
      subst hc0
      simp [serve_connection, List.takeWhile_cons]

/-- C7: whenever a receive delivers zero or fewer bytes, the connection is
torn down, the loop pushed exactly the chunks received before that point,
and nothing is pushed for the terminating receive; in particular a peer
that sends 500 bytes and closes gets exactly those 500 bytes pushed before
teardown. -/
theorem recv_zero_tears_down (recvs : List (List Nat)) (h : [] ∈ recvs) :
    serve_connection recvs = (recvs.takeWhile (fun c => decide (0 < c.length)), true) ∧
    serve_connection [List.replicate 500 7, []] = ([List.replicate 500 7], true) := by
  refine ⟨serve_connection_takeWhile recvs h, ?_⟩
  norm_num [serve_connection]

/-- Witness for C7 at a concrete input: one 1-byte chunk then a zero-length
receive. -/
theorem recv_zero_tears_down_witness :
    (([] : List Nat) ∈ [[5], ([] : List Nat)]) ∧
    (serve_connection [[5], []] =
        ([[5], ([] : List Nat)].takeWhile (fun c => decide (0 < c.length)), true) ∧
     serve_connection [List.replicate 500 7, []] = ([List.replicate 500 7], true)) :=
  ⟨by decide, recv_zero_tears_down [[5], []] (by decide)⟩

/-- relayDrain moves pending bytes into the buffer without changing the
combined content. -/
theorem relayDrain_content (s : RelaySt) :
    (relayDrain s).buf ++ (relayDrain s).pending = s.buf ++ s.pending := by
  show (s.buf ++ s.pending.take _) ++ s.pending.drop _ = s.buf ++ s.pending
  rw [List.append_assoc, List.take_append_drop]

/-- relayDrain never fills the buffer beyond the capacity. -/
theorem relayDrain_len (s : RelaySt) (h : s.buf.length ≤ STREAM_BUFFER_SIZE) :
    (relayDrain s).buf.length ≤ STREAM_BUFFER_SIZE := by
  show (s.buf ++ s.pending.take
      (min s.pending.length (STREAM_BUFFER_SIZE - s.buf.length))).length ≤ _
  rw [List.length_append, List.length_take]
  omega

/-- After relayDrain, a sender is still blocked only if the buffer is
completely full. -/
theorem relayDrain_full (s : RelaySt) (h : s.buf.length ≤ STREAM_BUFFER_SIZE) :
    (relayDrain s).pending = [] ∨ (relayDrain s).buf.length = STREAM_BUFFER_SIZE := by
  by_cases hp : s.pending.length ≤ STREAM_BUFFER_SIZE - s.buf.length
  · left
    show s.pending.drop (min s.pending.length (STREAM_BUFFER_SIZE - s.buf.length)) = []
    have hmin : min s.pending.length (STREAM_BUFFER_SIZE - s.buf.length) =
        s.pending.length := by omega
    rw [hmin, List.drop_length]
  · right
    show (s.buf ++ s.pending.take
        (min s.pending.length (STREAM_BUFFER_SIZE - s.buf.length))).length = _
    rw [List.length_append, List.length_take]
    omega

/-- A blocking send preserves the combined byte sequence: buffer plus
pending afterwards is the old buffer, the old pending bytes, then the new
bytes, in that order. -/
theorem xStreamBufferSend_content (s : RelaySt) (b : List Nat) :
    (xStreamBufferSend s b).buf ++ (xStreamBufferSend s b).pending =
      s.buf ++ (s.pending ++ b) := by
  have h := relayDrain_content ⟨s.buf, s.pending ++ b⟩
  simpa [xStreamBufferSend] using h

/-- A blocking send keeps the buffer within capacity. -/
theorem xStreamBufferSend_len (s : RelaySt) (b : List Nat)
    (h : s.buf.length ≤ STREAM_BUFFER_SIZE) :
    (xStreamBufferSend s b).buf.length ≤ STREAM_BUFFER_SIZE :=
  relayDrain_len ⟨s.buf, s.pending ++ b⟩ h

/-- After a blocking send, a sender is blocked only while the buffer is
full. -/
theorem xStreamBufferSend_full (s : RelaySt) (b : List Nat)
    (h : s.buf.length ≤ STREAM_BUFFER_SIZE) :
    (xStreamBufferSend s b).pending = [] ∨
    (xStreamBufferSend s b).buf.length = STREAM_BUFFER_SIZE :=
  relayDrain_full ⟨s.buf, s.pending ++ b⟩ h

/-- A receive preserves the combined byte sequence: the delivered chunk
followed by the remaining buffer and pending bytes is the old buffer plus
pending. -/
theorem xStreamBufferReceive_content (s : RelaySt) (n : Nat) :
    (xStreamBufferReceive s n).1 ++
        ((xStreamBufferReceive s n).2.buf ++ (xStreamBufferReceive s n).2.pending) =
      s.buf ++ s.pending := by
  show s.buf.take n ++ ((relayDrain ⟨s.buf.drop n, s.pending⟩).buf ++
      (relayDrain ⟨s.buf.drop n, s.pending⟩).pending) = _
  rw [relayDrain_content]
  show s.buf.take n ++ (s.buf.drop n ++ s.pending) = _
  rw [← List.append_assoc, List.take_append_drop]

/-- A receive keeps the buffer within capacity. -/
theorem xStreamBufferReceive_len (s : RelaySt) (n : Nat)
    (h : s.buf.length ≤ STREAM_BUFFER_SIZE) :
    (xStreamBufferReceive s n).2.buf.length ≤ STREAM_BUFFER_SIZE :=
  relayDrain_len ⟨s.buf.drop n, s.pending⟩ (by rw [List.length_drop]; omega)

/-- After a receive, a sender is blocked only while the buffer is full. -/
theorem xStreamBufferReceive_full (s : RelaySt) (n : Nat)
    (h : s.buf.length ≤ STREAM_BUFFER_SIZE) :
    (xStreamBufferReceive s n).2.pending = [] ∨
    (xStreamBufferReceive s n).2.buf.length = STREAM_BUFFER_SIZE :=
  relayDrain_full ⟨s.buf.drop n, s.pending⟩ (by rw [List.length_drop]; omega)

/-- Unfolding one event of relayRunFrom. -/
theorem relayRunFrom_cons (acc : RelaySt × List Nat) (e : RelayEvt)
    (es : List RelayEvt) :
    relayRunFrom acc (e :: es) =
      relayRunFrom ((relayStep acc.1 e).1, acc.2 ++ (relayStep acc.1 e).2) es := rfl

/-- Append juggling for the send case of the relay invariant. -/
theorem append_chain_send {α : Type} (u x y p q r : List α)
    (h : x ++ y = p ++ (q ++ r)) (z : List α) :
    u ++ (x ++ (y ++ z)) = u ++ (p ++ (q ++ (r ++ z))) := by
  have h1 : x ++ (y ++ z) = (x ++ y) ++ z := (List.append_assoc x y z).symm
  rw [h1, h]
  simp [List.append_assoc]

/-- Append juggling for the receive case of the relay invariant. -/
theorem append_chain_recv {α : Type} (u r x y p q : List α)
    (h : r ++ (x ++ y) = p ++ q) (z : List α) :
    (u ++ r) ++ (x ++ (y ++ z)) = u ++ (p ++ (q ++ z)) := by
  have h1 : (u ++ r) ++ (x ++ (y ++ z)) = u ++ ((r ++ (x ++ y)) ++ z) := by
    simp [List.append_assoc]
  rw [h1, h]
  simp [List.append_assoc]

/-- Invariant of the relay over any event sequence from any in-capacity
state: the buffer stays within capacity, a sender stays blocked only while
the buffer is full, and the delivered output followed by buffer and pending
content equals the starting content plus everything sent. -/
theorem relayRunFrom_spec (evts : List RelayEvt) :
    ∀ s : RelaySt, ∀ out : List Nat,
      s.buf.length ≤ STREAM_BUFFER_SIZE →
      (s.pending = [] ∨ s.buf.length = STREAM_BUFFER_SIZE) →
      (relayRunFrom (s, out) evts).1.buf.length ≤ STREAM_BUFFER_SIZE ∧
      ((relayRunFrom (s, out) evts).1.pending = [] ∨
        (relayRunFrom (s, out) evts).1.buf.length = STREAM_BUFFER_SIZE) ∧
      (relayRunFrom (s, out) evts).2 ++
          ((relayRunFrom (s, out) evts).1.buf ++ (relayRunFrom (s, out) evts).1.pending) =
        out ++ (s.buf ++ (s.pending ++ sentBytes evts)) := by
  induction evts with
  | nil =>
    intro s out h hf
    refine ⟨h, hf, ?_⟩
    simp [relayRunFrom, sentBytes]
  | cons e es ih =>
    intro s out h hf
    cases e with
    | send b =>
      rw [relayRunFrom_cons]
      have hred : ((relayStep (s, out).1 (RelayEvt.send b)).1,
          (s, out).2 ++ (relayStep (s, out).1 (RelayEvt.send b)).2) =
          (xStreamBufferSend s b, out ++ []) := rfl
      rw [hred]
      have hih := ih (xStreamBufferSend s b) (out ++ [])
        (xStreamBufferSend_len s b h) (xStreamBufferSend_full s b h)
      refine ⟨hih.1, hih.2.1, ?_⟩
      rw [hih.2.2]
      simp only [List.append_nil, sentBytes]
      exact append_chain_send out (xStreamBufferSend s b).buf
        (xStreamBufferSend s b).pending s.buf s.pending b
        (xStreamBufferSend_content s b) (sentBytes es)
    | recv n =>
      rw [relayRunFrom_cons]
      have hred : ((relayStep (s, out).1 (RelayEvt.recv n)).1,
          (s, out).2 ++ (relayStep (s, out).1 (RelayEvt.recv n)).2) =
          ((xStreamBufferReceive s n).2, out ++ (xStreamBufferReceive s n).1) := rfl
      rw [hred]
      have hih := ih (xStreamBufferReceive s n).2 (out ++ (xStreamBufferReceive s n).1)
        (xStreamBufferReceive_len s n h) (xStreamBufferReceive_full s n h)
      refine ⟨hih.1, hih.2.1, ?_⟩
      rw [hih.2.2]
      simp only [sentBytes]
      exact append_chain_recv out (xStreamBufferReceive s n).1
        (xStreamBufferReceive s n).2.buf (xStreamBufferReceive s n).2.pending
        s.buf s.pending (xStreamBufferReceive_content s n) (sentBytes es)

/-- C6: over every sequence of producer sends and consumer receives from
the empty buffer, the relay buffer never holds more than
STREAM_BUFFER_SIZE bytes; a sender is left blocked (with undelivered
pending bytes) only while the buffer is completely full, so a send blocks
rather than dropping or growing the buffer; and no byte is dropped or
fabricated: the bytes delivered to the consumer, followed by the buffer
content and the bytes a blocked sender still holds, are exactly the bytes
handed to the send side, in order. -/
theorem relay_bounded_no_drop (evts : List RelayEvt) :
    (relayRun evts).1.buf.length ≤ STREAM_BUFFER_SIZE ∧
    ((relayRun evts).1.pending = [] ∨
      (relayRun evts).1.buf.length = STREAM_BUFFER_SIZE) ∧
    (relayRun evts).2 ++ ((relayRun evts).1.buf ++ (relayRun evts).1.pending) =
      sentBytes evts := by
  have h := relayRunFrom_spec evts emptyRelay [] (by simp [emptyRelay]) (Or.inl rfl)
  simpa [relayRun, emptyRelay] using h

/-- Receiving from a buffer holding a run of equal bytes, with no blocked
sender. -/
theorem receive_replicate (m n a : Nat) :
    xStreamBufferReceive ⟨List.replicate m a, []⟩ n =
      (List.replicate (min n m) a, ⟨List.replicate (m - n) a, []⟩) := by
  simp [xStreamBufferReceive, relayDrain]

/-- C5: with capacity 16384, after a single push of 4000 bytes into the
empty buffer and no further pushes, four consecutive pulls of 1024 bytes
deliver 1024, 1024, 1024 and 928 bytes (all the data, in order), a fifth
pull delivers 0 bytes once the timeout elapses, and the audio callback at
that point zero-fills the missing 1024 bytes and reports 1024 delivered. -/
theorem scenario_burst_pull_sequence :
    xStreamBufferSend emptyRelay (List.replicate 4000 7) =
      ⟨List.replicate 4000 7, []⟩ ∧
    xStreamBufferReceive ⟨List.replicate 4000 7, []⟩ 1024 =
      (List.replicate 1024 7, ⟨List.replicate 2976 7, []⟩) ∧
    xStreamBufferReceive ⟨List.replicate 2976 7, []⟩ 1024 =
      (List.replicate 1024 7, ⟨List.replicate 1952 7, []⟩) ∧
    xStreamBufferReceive ⟨List.replicate 1952 7, []⟩ 1024 =
      (List.replicate 1024 7, ⟨List.replicate 928 7, []⟩) ∧
    xStreamBufferReceive ⟨List.replicate 928 7, []⟩ 1024 =
      (List.replicate 928 7, ⟨[], []⟩) ∧
    xStreamBufferReceive ⟨[], []⟩ 1024 = ([], ⟨[], []⟩) ∧
    a2d_data_cb (some ()) 1024 ⟨[], []⟩ = (1024, List.replicate 1024 0, ⟨[], []⟩) := by
  refine ⟨?_, ?_, ?_, ?_, ?_, ?_, ?_⟩
  · norm_num [xStreamBufferSend, relayDrain, emptyRelay, STREAM_BUFFER_SIZE]
  · rw [receive_replicate]; norm_num
  · rw [receive_replicate]; norm_num
  · rw [receive_replicate]; norm_num
  · rw [receive_replicate]; norm_num
  · simp [xStreamBufferReceive, relayDrain]
  · norm_num [a2d_data_cb, xStreamBufferReceive, relayDrain,
      reduceCtorEq, Option.some_ne_none]
    decide

/-- Writing one byte at the first zeroed position of a buffer that is a
written prefix followed by zeros. -/
theorem set_prefix_replicate (p : List Nat) (m v : Nat) (hm : 1 ≤ m) :
    (p ++ List.replicate m 0).set p.length v =
      (p ++ [v]) ++ List.replicate (m - 1) 0 := by
  rw [List.set_eq_take_cons_drop v
    (by simp only [List.length_append, List.length_replicate]; omega)]
  rw [List.take_left]
  rw [List.drop_append 1]
  simp [List.drop_replicate]

/-- Invariant of the get_user_input read loop: started at index i with a
buffer that is an i-character written prefix followed by zeros, the loop
ends with a written prefix of at most len - 1 characters followed by
zeros. -/
theorem gui_loop_spec (stream : List Int) :
    ∀ p : List Nat, ∀ len : Nat, p.length ≤ len - 1 → 1 ≤ len →
      ∃ w : List Nat, w.length ≤ len - 1 ∧
        gui_loop (p ++ List.replicate (len - p.length) 0) p.length len stream =
          w ++ List.replicate (len - w.length) 0 := by
  induction stream with
  | nil =>
    intro p len hp _
    exact ⟨p, hp, rfl⟩
  | cons c rest ih =>
    intro p len hp hl
    by_cases hi : p.length < len - 1
    · by_cases hc : 0 ≤ c
      · by_cases hbr : c = 10 ∨ c = 13
        · exact ⟨p, hp, by simp [gui_loop, hi, hc, hbr]⟩
        · have hset := set_prefix_replicate p (len - p.length) c.toNat (by omega)
          have hlen1 : (p ++ [c.toNat]).length = p.length + 1 := by simp
          obtain ⟨w, hw, heq⟩ := ih (p ++ [c.toNat]) len (by simp; omega) hl
          refine ⟨w, hw, ?_⟩
          have hstep : gui_loop (p ++ List.replicate (len - p.length) 0) p.length len
                (c :: rest) =
              gui_loop ((p ++ List.replicate (len - p.length) 0).set p.length c.toNat)
                (p.length + 1) len rest := by
            simp [gui_loop, hi, hc, hbr]
          rw [hstep, hset]
          simp only [hlen1] at heq
          have harith : len - p.length - 1 = len - (p.length + 1) := by omega
          rw [harith]
          exact heq
      · obtain ⟨w, hw, heq⟩ := ih p len hp hl
        refine ⟨w, hw, ?_⟩
        have hstep : gui_loop (p ++ List.replicate (len - p.length) 0) p.length len
              (c :: rest) =
            gui_loop (p ++ List.replicate (len - p.length) 0) p.length len rest := by
          simp [gui_loop, hi, hc]
        rw [hstep]
        exact heq
    · exact ⟨p, hp, by simp [gui_loop, hi]⟩

/-- C9: get_user_input with a destination of size len writes at most
len - 1 characters — the result is a written prefix w of at most len - 1
bytes followed by the zero bytes left by the initial memset — so the
destination keeps its size and its last byte is always the NUL left by the
memset: the captured text never exceeds the destination. -/
theorem get_user_input_bounded (stream : List Int) (len : Nat) (h : 1 ≤ len) :
    ∃ w : List Nat, w.length ≤ len - 1 ∧
      get_user_input stream len = w ++ List.replicate (len - w.length) 0 ∧
      (get_user_input stream len).length = len ∧
      (get_user_input stream len).getD (len - 1) 1 = 0 := by
  obtain ⟨w, hw, heq⟩ := gui_loop_spec stream [] len (by simp) h
  have heq2 : get_user_input stream len = w ++ List.replicate (len - w.length) 0 := by
    simpa [get_user_input] using heq
  refine ⟨w, hw, heq2, ?_, ?_⟩
  · rw [heq2]
    simp only [List.length_append, List.length_replicate]
    omega
  · rw [heq2]
    rw [List.getD_append_right _ _ _ _ (by omega)]
    have hlt : len - 1 - w.length < len - w.length := by omega
    simp [List.getD_eq_getElem?_getD, List.getElem?_replicate, hlt]

/-- Witness for C9 at a concrete input: two characters then a newline,
destination size 4. -/
theorem get_user_input_bounded_witness :
    1 ≤ 4 ∧
    ∃ w : List Nat, w.length ≤ 4 - 1 ∧
      get_user_input [104, 105, 10] 4 = w ++ List.replicate (4 - w.length) 0 ∧
      (get_user_input [104, 105, 10] 4).length = 4 ∧
      (get_user_input [104, 105, 10] 4).getD (4 - 1) 1 = 0 :=
  ⟨by decide, get_user_input_bounded [104, 105, 10] 4 (by decide)⟩

end AudioBridge
